import Mathlib

/-!
Shallow embedding of the tower-http-response-cache middleware
(HTTP response caching with integrated content encoding).

Conventions of the embedding:
* Byte buffers (the ImmutableBytes of the source) are lists of naturals.
* HTTP header maps are association lists whose names are already in the
  canonical lowercase form used by the http crate; insertion replaces any
  existing entry of the same name, mirroring HeaderMap::insert.
* usize values are naturals (weights and lengths are bounded by live memory
  in the source, far below 2^64, so machine-width wrap-around is unreachable).
* External collaborators (the kutil helper crate: header accessors, the
  compression codecs, the body reader) are modelled from the spec where noted;
  the code under src/ is translated directly.
* Async functions are modelled as pure functions; fallible ones return Except.
-/

/-- Byte buffer: model of ImmutableBytes. -/
abbrev Bytes := List Nat

/-- Header map: association list of lowercase name and value, in insertion
order. Model of the http crate HeaderMap. -/
abbrev HeaderMap := List (String × String)

/-- Decimal digit value of a character, if any. -/
def digitVal? (c : Char) : Option Nat :=
  if c = '0' then some 0 else if c = '1' then some 1
  else if c = '2' then some 2 else if c = '3' then some 3
  else if c = '4' then some 4 else if c = '5' then some 5
  else if c = '6' then some 6 else if c = '7' then some 7
  else if c = '8' then some 8 else if c = '9' then some 9
  else none

/-- Accumulating decimal parse over a character list. -/
def parseNatAux : List Char → Nat → Option Nat
  | [], acc => some acc
  | c :: rest, acc =>
    match digitVal? c with
    | some d => parseNatAux rest (acc * 10 + d)
    | none => none

/-- Modelled from the spec: decimal parsing of a numeric header value into a
usize; anything non-numeric does not parse. -/
def parseNat? (s : String) : Option Nat :=
  match s.data with
  | [] => none
  | ds => parseNatAux ds 0

namespace HeaderMap

/-- Model of HeaderMap::contains_key. -/
def contains_key (h : HeaderMap) (n : String) : Bool :=
  h.any (fun p => p.1 == n)

/-- Model of HeaderMap::remove (removes every entry of the name). -/
def remove (h : HeaderMap) (n : String) : HeaderMap :=
  h.filter (fun p => p.1 != n)

/-- Model of HeaderMap::insert via the kutil set_value and
set_into_header_value helpers: replaces any existing entry. -/
def set_value (h : HeaderMap) (n v : String) : HeaderMap :=
  remove h n ++ [(n, v)]

/-- First value of the named header, if present. -/
def get_value (h : HeaderMap) (n : String) : Option String :=
  (h.find? (fun p => p.1 == n)).map (fun p => p.2)

/-- Modelled from the spec: the kutil xx_cache accessor. The XX-Cache header
holds "true" or "false"; when absent the supplied default applies. -/
def xx_cache (h : HeaderMap) (default : Bool) : Bool :=
  match get_value h "xx-cache" with
  | some v => v == "true"
  | none => default

/-- Modelled from the spec: the kutil xx_encode accessor. The XX-Encode header
holds "true" or "false"; when absent the supplied default applies. -/
def xx_encode (h : HeaderMap) (default : Bool) : Bool :=
  match get_value h "xx-encode" with
  | some v => v == "true"
  | none => default

/-- Modelled from the spec: the kutil content_length accessor, parsing the
Content-Length header into a usize. -/
def content_length (h : HeaderMap) : Option Nat :=
  (get_value h "content-length").bind parseNat?

/-- Modelled from the spec: the kutil xx_cache_duration accessor. The source
parses a human-readable duration string; the model parses a natural number of
milliseconds. An unparsable value means no override, per the spec's
BadHeaderValue policy. -/
def xx_cache_duration (h : HeaderMap) : Option Nat :=
  (get_value h "xx-cache-duration").bind parseNat?

end HeaderMap

/-- Content encodings: model of the kutil Encoding enum, a closed variant
set per the spec. -/
inductive Encoding where
  | Identity
  | GZip
  | Deflate
  | Brotli
  | Zstd
deriving DecidableEq, Repr

/-- All encodings, for iterating over representation maps. -/
def Encoding.all : List Encoding :=
  [.Identity, .GZip, .Deflate, .Brotli, .Zstd]

/-- Modelled from the spec: Content-Encoding identifier mapping
(gzip, deflate, br, zstd; identity is implicit). -/
def Encoding.headerName : Encoding → String
  | .Identity => "identity"
  | .GZip => "gzip"
  | .Deflate => "deflate"
  | .Brotli => "br"
  | .Zstd => "zstd"

/-- Modelled from the spec: the kutil content_encoding accessor, mapping the
Content-Encoding header to an Encoding; absent or unrecognized is Identity. -/
def HeaderMap.contentEncoding (h : HeaderMap) : Encoding :=
  match HeaderMap.get_value h "content-encoding" with
  | some "gzip" => .GZip
  | some "deflate" => .Deflate
  | some "br" => .Brotli
  | some "zstd" => .Zstd
  | _ => .Identity

/-- Modelled from the spec: the kutil decoding-cost order, cheapest first,
with Identity cheapest. The order of the compressed tail is external to this
repository and none of the verified properties depend on it. -/
def ENCODINGS_BY_DECODING_COST : List Encoding :=
  [.Identity, .GZip, .Deflate, .Zstd, .Brotli]

/-- Modelled from the spec: the codec contract, encode and decode primitives
for the non-identity algorithms. Fallible, mirroring the io::Result of the
source's transcoding calls. -/
structure Codec where
  encode : Encoding → Bytes → Except Unit Bytes
  decode : Encoding → Bytes → Except Unit Bytes

/-- EncodingConfiguration (src/cache/configuration.rs). -/
structure EncodingConfiguration where
  min_body_size : Nat
  encodable_by_default : Bool
  keep_identity_encoding : Bool

/-- CachingConfiguration (src/cache/configuration.rs). The cache_duration
hook takes the request URI and the response headers. -/
structure CachingConfiguration where
  min_body_size : Nat
  max_body_size : Nat
  cacheable_by_default : Bool
  cache_duration : Option (String → HeaderMap → Option Nat)

/-- Finite map from Encoding to byte buffers: model of the FastHashMap used
for body representations. -/
def Representations := Encoding → Option Bytes

/-- The empty representation map. -/
def Representations.empty : Representations := fun _ => none

/-- Model of FastHashMap::insert. -/
def Representations.insert (r : Representations) (e : Encoding) (b : Bytes) :
    Representations :=
  fun x => if x = e then some b else r x

/-- CachedBody (src/cache/body.rs): a map from encoding to immutable bytes. -/
structure CachedBody where
  representations : Representations

/-- First encoding of the list that has a representation, with its bytes:
model of the source's for-loops over ENCODINGS_BY_DECODING_COST. -/
def Representations.firstAvailable (r : Representations) :
    List Encoding → Option (Encoding × Bytes)
  | [] => none
  | e :: rest =>
    match r e with
    | some b => some (e, b)
    | none => firstAvailable r rest

/-- CachedBody::new_with (src/cache/body.rs lines 29-68): constructor with an
initial representation, reencoding when the preferred encoding differs from
the source encoding, optionally retaining an identity copy. -/
def CachedBody.new_with (codec : Codec) (bytes : Bytes)
    (encoding preferred_encoding : Encoding)
    (configuration : EncodingConfiguration) : Except Unit CachedBody :=
  if preferred_encoding = encoding then
    .ok ⟨Representations.empty.insert preferred_encoding bytes⟩
  else if encoding = .Identity then
    match codec.encode preferred_encoding bytes with
    | .ok encoded_bytes =>
      let reprs := Representations.empty.insert preferred_encoding encoded_bytes
      let reprs :=
        if configuration.keep_identity_encoding then
          reprs.insert .Identity bytes
        else reprs
      .ok ⟨reprs⟩
    | .error e => .error e
  else if preferred_encoding = .Identity then
    match codec.decode encoding bytes with
    | .ok identity_bytes =>
      .ok ⟨Representations.empty.insert .Identity identity_bytes⟩
    | .error e => .error e
  else
    match codec.decode encoding bytes with
    | .ok identity_bytes =>
      match codec.encode preferred_encoding identity_bytes with
      | .ok encoded_bytes =>
        let reprs := Representations.empty.insert preferred_encoding encoded_bytes
        let reprs :=
          if configuration.keep_identity_encoding then
            reprs.insert .Identity identity_bytes
          else reprs
        .ok ⟨reprs⟩
      | .error e => .error e
    | .error e => .error e

/-- CachedBody::get (src/cache/body.rs lines 80-151): returns the bytes in
the requested encoding, decoding or reencoding from a stored representation
when absent, together with a modified clone when a new representation was
stored. An empty body yields empty bytes without failing. -/
def CachedBody.get (codec : Codec) (self : CachedBody) (encoding : Encoding)
    (configuration : EncodingConfiguration) :
    Except Unit (Bytes × Option CachedBody) :=
  match self.representations encoding with
  | some bytes => .ok (bytes, none)
  | none =>
    if encoding = .Identity then
      -- Decode
      match self.representations.firstAvailable ENCODINGS_BY_DECODING_COST with
      | some (from_encoding, bytes) =>
        match codec.decode from_encoding bytes with
        | .ok identity_bytes =>
          .ok (identity_bytes,
            some ⟨self.representations.insert .Identity identity_bytes⟩)
        | .error e => .error e
      | none =>
        -- This should never happen (and the source does not panic here)
        .ok ([], none)
    else
      -- Reencode
      match self.representations .Identity with
      | some identity_bytes =>
        match codec.encode encoding identity_bytes with
        | .ok bytes =>
          .ok (bytes, some ⟨self.representations.insert encoding bytes⟩)
        | .error e => .error e
      | none =>
        match self.representations.firstAvailable ENCODINGS_BY_DECODING_COST with
        | some (from_encoding, b) =>
          match codec.decode from_encoding b with
          | .ok identity_bytes =>
            match codec.encode encoding identity_bytes with
            | .ok bytes =>
              let reprs :=
                if configuration.keep_identity_encoding then
                  self.representations.insert .Identity identity_bytes
                else self.representations
              .ok (bytes, some ⟨reprs.insert encoding bytes⟩)
            | .error e => .error e
          | .error e => .error e
        | none =>
          -- This should never happen (and the source does not panic here)
          .ok ([], none)

/-- size_of::<CachedBody>(): platform constant, representative value. None of
the verified properties depend on its value. -/
def CACHED_BODY_SELF_SIZE : Nat := 48

/-- size_of::<Encoding>() + size_of::<ImmutableBytes>(): platform constant,
representative value. -/
def CACHED_BODY_ENTRY_SIZE : Nat := 40

/-- CacheWeight for CachedBody (src/cache/body.rs lines 154-167): struct size
plus, per stored representation, a fixed entry overhead plus the byte count. -/
def CachedBody.cache_weight (self : CachedBody) : Nat :=
  CACHED_BODY_SELF_SIZE +
    (Encoding.all.map (fun e =>
      match self.representations e with
      | some bytes => CACHED_BODY_ENTRY_SIZE + bytes.length
      | none => 0)).sum

/-- Response parts (the http crate Parts): status, headers, and the count of
extension entries (only its length matters for weight accounting). -/
structure Parts where
  status : Nat
  headers : HeaderMap
  extensionsLen : Nat

/-- Modelled from the spec: the http crate StatusCode::is_success (2xx). -/
def Parts.is_success (p : Parts) : Bool :=
  200 ≤ p.status && p.status ≤ 299

/-- ResponsePieces: the upstream response parts plus the already-read first
bytes, used to reconstruct a non-cacheable stream. -/
structure ResponsePieces where
  response : Parts
  first_bytes : Bytes

/-- CachedResponse (src/cache/response.rs): parts, cached body, optional
duration (milliseconds). -/
structure CachedResponse where
  parts : Parts
  body : CachedBody
  duration : Option Nat

/-- CachedResponse::headers. -/
def CachedResponse.headers (self : CachedResponse) : HeaderMap :=
  self.parts.headers

/-- CachedResponse::clone_with_body (src/cache/response.rs lines 159-165). -/
def CachedResponse.clone_with_body (self : CachedResponse) (body : CachedBody) :
    CachedResponse :=
  { parts := self.parts, body := body, duration := self.duration }

/-- The encoding downgrade new_for applies before storing
(src/cache/response.rs lines 89-104): Identity when the stored XX-Encode
header resolves to false or the read body is below min_body_size. -/
def new_for_preferred (headers : HeaderMap) (bytes : Bytes)
    (preferred_encoding : Encoding)
    (encoding_configuration : EncodingConfiguration) : Encoding :=
  if preferred_encoding ≠ .Identity then
    if !(headers.xx_encode encoding_configuration.encodable_by_default) then
      .Identity
    else if bytes.length < encoding_configuration.min_body_size then
      .Identity
    else preferred_encoding
  else preferred_encoding

/-- The cache duration new_for stores (src/cache/response.rs lines 116-123):
the XX-Cache-Duration header wins, else the cache_duration hook. -/
def new_for_duration (uri : String) (headers : HeaderMap)
    (caching_configuration : CachingConfiguration) : Option Nat :=
  match headers.xx_cache_duration with
  | some duration => some duration
  | none =>
    caching_configuration.cache_duration.bind (fun hook => hook uri headers)

/-- The header rewriting new_for performs
(src/cache/response.rs lines 129-149): ensure Last-Modified (stamped with the
current time when absent), strip XX-Cache, XX-Cache-Duration,
Content-Encoding, Content-Length and Content-Digest, retain XX-Encode: true
when encoding was force-skipped, and strip Accept-Ranges. -/
def new_for_headers (headers : HeaderMap) (now : String)
    (skip_encoding : Bool) : HeaderMap :=
  let headers :=
    if headers.contains_key "last-modified" then headers
    else headers.set_value "last-modified" now
  let headers := headers.remove "xx-cache"
  let headers := headers.remove "xx-cache-duration"
  let headers := headers.remove "content-encoding"
  let headers := headers.remove "content-length"
  let headers := headers.remove "content-digest"
  let headers :=
    if skip_encoding then headers.set_value "xx-encode" "true" else headers
  headers.remove "accept-ranges"

/-- CachedResponse::new_for (src/cache/response.rs lines 60-156).

The kutil body reader (read_into_bytes_or_pieces) is external: its outcome is
the read_result argument, either the fully read bytes or, on failure, the
already-read first bytes. A read failure is returned together with
ResponsePieces (some); a body construction failure carries no pieces (none),
mirroring ErrorWithResponsePieces. The now argument is the formatted current
time used to stamp Last-Modified. -/
def CachedResponse.new_for (codec : Codec) (now : String) (uri : String)
    (response : Parts) (read_result : Except Bytes Bytes)
    (preferred_encoding : Encoding) (skip_encoding : Bool)
    (caching_configuration : CachingConfiguration)
    (encoding_configuration : EncodingConfiguration) :
    Except (Option ResponsePieces) CachedResponse :=
  let parts := response
  match read_result with
  | .error first_bytes => .error (some ⟨parts, first_bytes⟩)
  | .ok bytes =>
    match CachedBody.new_with codec bytes parts.headers.contentEncoding
        (new_for_preferred parts.headers bytes preferred_encoding
          encoding_configuration)
        encoding_configuration with
    | .error _ => .error none
    | .ok body =>
      .ok { parts := { parts with
              headers := new_for_headers parts.headers now skip_encoding },
            body := body,
            duration := new_for_duration uri parts.headers
              caching_configuration }

/-- The emitted response of CachedResponse::to_response: parts plus the body
bytes of the chosen representation. -/
structure ResponseOut where
  parts : Parts
  bodyBytes : Bytes

/-- The encoding actually used by CachedResponse::to_response
(src/cache/response.rs lines 193-198): the requested encoding, downgraded to
Identity when the stored XX-Encode header resolves to false. -/
def CachedResponse.effectiveEncoding (self : CachedResponse)
    (encoding : Encoding) (configuration : EncodingConfiguration) : Encoding :=
  if encoding ≠ .Identity &&
      !(self.headers.xx_encode configuration.encodable_by_default) then
    .Identity
  else encoding

/-- CachedResponse::to_response (src/cache/response.rs lines 185-219):
serializes the cached response for the requested encoding, stripping
XX-Encode, setting Content-Encoding for non-identity encodings and
Content-Length to the representation's byte length, and passing along the
modified body clone as a modified clone of self. -/
def CachedResponse.to_response (codec : Codec) (self : CachedResponse)
    (encoding : Encoding) (configuration : EncodingConfiguration) :
    Except Unit (ResponseOut × Option CachedResponse) :=
  let encoding := self.effectiveEncoding encoding configuration
  match self.body.get codec encoding configuration with
  | .error e => .error e
  | .ok (bytes, modified) =>
    let headers := self.parts.headers.remove "xx-encode"
    let headers :=
      if encoding ≠ .Identity then
        headers.set_value "content-encoding" encoding.headerName
      else headers
    let headers := headers.set_value "content-length" (toString bytes.length)
    .ok ({ parts := { self.parts with headers := headers }, bodyBytes := bytes },
         modified.map self.clone_with_body)

/-- size_of::<CachedResponse>(): platform constant, representative value. -/
def CACHED_RESPONSE_SELF_SIZE : Nat := 160

/-- size_of::<HeaderName>() + size_of::<HeaderValue>(): platform constant,
representative value. -/
def HEADER_MAP_ENTRY_SIZE : Nat := 64

/-- size_of::<TypeId>(): platform constant, representative value. -/
def EXTENSION_ENTRY_SIZE : Nat := 16

/-- CacheWeight for CachedResponse (src/cache/response.rs lines 222-240). -/
def CachedResponse.cache_weight (self : CachedResponse) : Nat :=
  CACHED_RESPONSE_SELF_SIZE +
    (self.parts.headers.map (fun p =>
      HEADER_MAP_ENTRY_SIZE + p.1.length + p.2.length)).sum +
    self.parts.extensionsLen * EXTENSION_ENTRY_SIZE +
    self.body.cache_weight

/-- u32::MAX. -/
def U32_MAX : Nat := 4294967295

/-- The moka weigher (src/cache/implementation/moka/weigher.rs lines 4-12):
key weight plus response weight, saturated to u32::MAX. CacheKey is a trait,
so the key's weight enters as a natural number. try_into to u32 succeeds
exactly when the sum fits, and unwrap_or(u32::MAX) saturates otherwise. -/
def weigher (key_weight : Nat) (cached_response : CachedResponse) : Nat :=
  let weight := key_weight + cached_response.cache_weight
  if weight ≤ U32_MAX then weight else U32_MAX

/-- A cache store: association list from key to cached response, a reference
model of the Cache trait operations (get, put, invalidate, invalidate_all)
of src/cache/cache.rs. -/
abbrev Store (κ : Type) := List (κ × CachedResponse)

/-- Cache::get as a store lookup. -/
def Store.get [DecidableEq κ] (s : Store κ) (key : κ) : Option CachedResponse :=
  (s.find? (fun p => p.1 = key)).map (fun p => p.2)

/-- Cache::put as a store update (replaces any entry of the key). -/
def Store.put [DecidableEq κ] (s : Store κ) (key : κ)
    (cached_response : CachedResponse) : Store κ :=
  (key, cached_response) :: s.filter (fun p => p.1 ≠ key)

/-- Cache::invalidate as a store removal. -/
def Store.invalidate [DecidableEq κ] (s : Store κ) (key : κ) : Store κ :=
  s.filter (fun p => p.1 ≠ key)

/-- Cache::invalidate_all. -/
def Store.invalidate_all (_ : Store κ) : Store κ := []

/-- TieredCache (src/cache/tiered.rs): two composed caches, each modelled as
a store. -/
structure TieredCache (κ : Type) where
  first : Store κ
  next : Store κ

/-- TieredCache get (src/cache/tiered.rs lines 34-39): first tier, then next
tier. It takes the cache by shared reference and returns no new state: the
tiers are left unchanged (in particular there is no write-back promotion). -/
def TieredCache.get [DecidableEq κ] (self : TieredCache κ) (key : κ) :
    Option CachedResponse :=
  match self.first.get key with
  | some cached_response => some cached_response
  | none => self.next.get key

/-- TieredCache put (src/cache/tiered.rs lines 41-44): fan out to both. -/
def TieredCache.put [DecidableEq κ] (self : TieredCache κ) (key : κ)
    (cached_response : CachedResponse) : TieredCache κ :=
  { first := self.first.put key cached_response,
    next := self.next.put key cached_response }

/-- TieredCache invalidate (src/cache/tiered.rs lines 46-49). -/
def TieredCache.invalidate [DecidableEq κ] (self : TieredCache κ) (key : κ) :
    TieredCache κ :=
  { first := self.first.invalidate key, next := self.next.invalidate key }

/-- TieredCache invalidate_all (src/cache/tiered.rs lines 51-54). -/
def TieredCache.invalidate_all (self : TieredCache κ) : TieredCache κ :=
  { first := self.first.invalidate_all, next := self.next.invalidate_all }

/-- MiddlewareCachingConfiguration (src/cache/middleware/configuration.rs).
The cache handle itself is threaded separately as a Store; cacheEnabled
models cache.is_some(). Hooks take the request or response URI and headers.
The cache_key hook is not modelled (no verified property concerns it). -/
structure MiddlewareCachingConfiguration where
  cacheEnabled : Bool
  cacheable_by_request : Option (String → HeaderMap → Bool)
  cacheable_by_response : Option (String → HeaderMap → Bool)
  inner : CachingConfiguration

/-- MiddlewareEncodingConfiguration (src/cache/middleware/configuration.rs).
Encodable hooks take the proposed encoding, the URI and the headers. -/
structure MiddlewareEncodingConfiguration where
  enabled_encodings_by_preference : Option (List Encoding)
  encodable_by_request : Option (Encoding → String → HeaderMap → Bool)
  encodable_by_response : Option (Encoding → String → HeaderMap → Bool)
  inner : EncodingConfiguration

/-- A request, as far as the middleware reads it. acceptBest models the kutil
accept_encoding().best(enabled) resolution from the spec: the client's most
preferred among the enabled encodings per Accept-Encoding q-values, with ties
broken by the server preference order; none when nothing matches. -/
structure RequestModel where
  method : String
  uri : String
  headers : HeaderMap
  acceptBest : List Encoding → Option Encoding

/-- Modelled from the spec: the http crate Method::is_idempotent. -/
def RequestModel.method_is_idempotent (r : RequestModel) : Bool :=
  r.method ∈ ["GET", "HEAD", "PUT", "DELETE", "OPTIONS", "TRACE"]

/-- Request should_skip_cache (src/cache/middleware/request.rs lines 33-59):
skip when the cache is disabled or the method is non-idempotent; otherwise
the cacheable_by_request hook gets a last chance to skip. -/
def RequestModel.should_skip_cache (self : RequestModel)
    (configuration : MiddlewareCachingConfiguration) : Bool :=
  let skip_cache :=
    if configuration.cacheEnabled then
      if self.method_is_idempotent then false else true
    else true
  if !skip_cache then
    match configuration.cacheable_by_request with
    | some cacheable =>
      if !cacheable self.uri self.headers then true else skip_cache
    | none => skip_cache
  else skip_cache

/-- Request select_encoding (src/cache/middleware/request.rs lines 77-108):
Identity when no encodings are enabled; otherwise the best client choice
among the enabled encodings (defaulting to Identity), downgraded to Identity
when non-identity and the encodable_by_request hook refuses. -/
def RequestModel.select_encoding (self : RequestModel)
    (configuration : MiddlewareEncodingConfiguration) : Encoding :=
  match configuration.enabled_encodings_by_preference with
  | some enabled_encodings =>
    if !enabled_encodings.isEmpty then
      let encoding := (self.acceptBest enabled_encodings).getD .Identity
      if encoding ≠ .Identity then
        match configuration.encodable_by_request with
        | some encodable =>
          if !encodable encoding self.uri self.headers then .Identity
          else encoding
        | none => encoding
      else encoding
    else .Identity
  | none => .Identity

/-- Upstream should_skip_cache
(src/cache/middleware/responses/upstream.rs lines 42-86): skip when XX-Cache
resolves to false, the status is not 2xx, Content-Range is present, or a
declared Content-Length falls outside [min_body_size, max_body_size]; an
in-range declared length is reported; finally the cacheable_by_response hook
gets a last chance to skip. -/
def Parts.should_skip_cache (self : Parts) (uri : String)
    (configuration : MiddlewareCachingConfiguration) : Bool × Option Nat :=
  let headers := self.headers
  let skip_cache :=
    if !headers.xx_cache configuration.inner.cacheable_by_default then
      (true, none)
    else if !self.is_success then
      (true, none)
    else if headers.contains_key "content-range" then
      (true, none)
    else
      match headers.content_length with
      | some content_length =>
        if content_length < configuration.inner.min_body_size then
          (true, some content_length)
        else if content_length > configuration.inner.max_body_size then
          (true, some content_length)
        else
          (false, some content_length)
      | none => (false, none)
  if !skip_cache.1 then
    match configuration.cacheable_by_response with
    | some cacheable =>
      if !cacheable uri headers then (true, skip_cache.2) else skip_cache
    | none => skip_cache
  else skip_cache

/-- Upstream validate_encoding
(src/cache/middleware/responses/upstream.rs lines 88-124): keep Identity as
is; otherwise downgrade to Identity and signal a forced skip when a known
content length is below a nonzero min_body_size, or when the
encodable_by_response hook refuses. -/
def Parts.validate_encoding (self : Parts) (uri : String) (encoding : Encoding)
    (content_length : Option Nat)
    (configuration : MiddlewareEncodingConfiguration) : Encoding × Bool :=
  if encoding = .Identity then
    (encoding, false)
  else
    let too_small :=
      match content_length with
      | some content_length =>
        let min_body_size := configuration.inner.min_body_size
        min_body_size ≠ 0 && content_length < min_body_size
      | none => false
    if too_small then
      (.Identity, true)
    else
      match configuration.encodable_by_response with
      | some encodable =>
        if encodable encoding uri self.headers then (encoding, false)
        else (.Identity, true)
      | none => (encoding, false)

/-- The response the middleware emits, as observable at the service boundary.
transcoding models with_transcoding_body (and, when first bytes are present,
with_transcoding_body_with_first_bytes): the given parts with a streaming body
that prepends the first bytes, if any, to the remaining upstream stream and
applies the given encoding. fromCache carries a fully materialized response
from a cache entry. error500 is the generic internal server error response
and notModified the synthetic 304. -/
inductive EmittedResponse where
  | transcoding (parts : Parts) (first_bytes : Option Bytes) (encoding : Encoding)
  | fromCache (response : ResponseOut)
  | error500
  | notModified

/-- to_transcoding_response
(src/cache/middleware/responses/cached.rs lines 47-82): serialize the cached
response; when it is new, put the original entry (not the modified clone)
into the cache; when it is not new and serialization produced a modified
clone, put the clone; on serialization failure emit the generic 500. -/
def CachedResponse.to_transcoding_response [DecidableEq κ] (codec : Codec)
    (self : CachedResponse) (encoding : Encoding) (is_new : Bool)
    (cache : Store κ) (key : κ) (configuration : EncodingConfiguration) :
    EmittedResponse × Store κ :=
  match self.to_response codec encoding configuration with
  | .ok (response, modified) =>
    if is_new then
      (.fromCache response, cache.put key self)
    else
      match modified with
      | some modified => (.fromCache response, cache.put key modified)
      | none => (.fromCache response, cache)
  | .error _ => (.error500, cache)

/-- CachingService::handle (src/service.rs lines 65-194).

External collaborators enter as arguments: the inner service's response is
the pair of upstream_parts and upstream_read (the outcome the kutil body
reader would produce for it), is_modified models the kutil conditional-check
helper on the request and cached headers (true means the full response must
be served, false means 304), key is the cache key computed by
cache_key_with_hook, and now stamps Last-Modified. Returns the emitted
response and the cache store after any put. -/
def handle [DecidableEq κ] (codec : Codec) (now : String)
    (caching : MiddlewareCachingConfiguration)
    (encoding_configuration : MiddlewareEncodingConfiguration)
    (request : RequestModel) (key : κ)
    (upstream_parts : Parts) (upstream_read : Except Bytes Bytes)
    (is_modified : HeaderMap → HeaderMap → Bool)
    (cache : Store κ) : EmittedResponse × Store κ :=
  if request.should_skip_cache caching then
    let uri := request.uri
    let encoding := request.select_encoding encoding_configuration
    let content_length := request.headers.content_length
    let (encoding, _skip_encoding) :=
      upstream_parts.validate_encoding uri encoding content_length
        encoding_configuration
    (.transcoding upstream_parts none encoding, cache)
  else
    match cache.get key with
    | some cached_response =>
      if is_modified request.headers cached_response.headers then
        cached_response.to_transcoding_response codec
          (request.select_encoding encoding_configuration) false cache key
          encoding_configuration.inner
      else
        (.notModified, cache)
    | none =>
      let uri := request.uri
      let encoding := request.select_encoding encoding_configuration
      let (skip_caching, content_length) :=
        upstream_parts.should_skip_cache uri caching
      let (encoding, skip_encoding) :=
        upstream_parts.validate_encoding uri encoding content_length
          encoding_configuration
      if skip_caching then
        (.transcoding upstream_parts none encoding, cache)
      else
        -- new_for passes content_length to the body reader as the declared
        -- size; the reader is external and its outcome is upstream_read
        match CachedResponse.new_for codec now uri upstream_parts upstream_read
            encoding skip_encoding caching.inner
            encoding_configuration.inner with
        | .ok cached_response =>
          cached_response.to_transcoding_response codec encoding true cache key
            encoding_configuration.inner
        | .error err =>
          match err with
          | some pieces =>
            (.transcoding pieces.response (some pieces.first_bytes) encoding,
             cache)
          | none =>
            (.error500, cache)

/-! Concrete fixtures used to evaluate the verified properties on
specific inputs. -/

/-- A trivial codec for concrete evaluations. -/
def wCodec : Codec := ⟨fun _ _ => .ok [], fun _ _ => .ok []⟩

/-- A codec whose decoder yields the byte 9, for concrete evaluations. -/
def wCodec9 : Codec := ⟨fun _ _ => .ok [], fun _ _ => .ok [9]⟩

/-- A minimal concrete cached response. -/
def wCached : CachedResponse :=
  { parts := { status := 200, headers := [("last-modified", "t")],
               extensionsLen := 0 },
    body := ⟨Representations.empty.insert .Identity [1, 2, 3]⟩,
    duration := none }

/-- A concrete caching configuration: body sizes limited to [2, 5], no hooks,
cache enabled. -/
def wConfigC : MiddlewareCachingConfiguration :=
  { cacheEnabled := true, cacheable_by_request := none,
    cacheable_by_response := none,
    inner := { min_body_size := 2, max_body_size := 5,
               cacheable_by_default := true, cache_duration := none } }

/-- A concrete upstream response declaring Content-Length 6. -/
def wParts6 : Parts :=
  { status := 200, headers := [("content-length", "6")], extensionsLen := 0 }

/-- A concrete upstream response declaring Content-Length 5. -/
def wParts5 : Parts :=
  { status := 200, headers := [("content-length", "5")], extensionsLen := 0 }

/-- A concrete cached response stored only in GZip form. -/
def wCachedG : CachedResponse :=
  { parts := { status := 200, headers := [("last-modified", "t")],
               extensionsLen := 0 },
    body := ⟨Representations.empty.insert .GZip [1, 2]⟩,
    duration := none }

/-- A concrete inner encoding configuration. -/
def wConfigE : EncodingConfiguration :=
  { min_body_size := 0, encodable_by_default := true,
    keep_identity_encoding := true }

/-- The response wCachedG serializes to for Identity under wCodec9. -/
def wRespOut : ResponseOut :=
  { parts := { status := 200,
               headers := [("last-modified", "t"), ("content-length", "1")],
               extensionsLen := 0 },
    bodyBytes := [9] }

/-- The modified clone wCachedG yields when its Identity form is created. -/
def wModified : CachedResponse :=
  wCachedG.clone_with_body ⟨wCachedG.body.representations.insert .Identity [9]⟩

/-- A concrete upstream response carrying control headers. -/
def wPartsXC : Parts :=
  { status := 200,
    headers := [("xx-cache", "true"), ("content-length", "5")],
    extensionsLen := 0 }

/-- A concrete inner caching configuration. -/
def wCCfg : CachingConfiguration :=
  { min_body_size := 0, max_body_size := 1024, cacheable_by_default := true,
    cache_duration := none }

/-- A cached response whose stored headers already carry a (stale)
Content-Encoding entry; constructible since CachedResponse is a plain public
struct, though new_for never produces one. -/
def wStaleCE : CachedResponse :=
  { parts := { status := 200, headers := [("content-encoding", "gzip")],
               extensionsLen := 0 },
    body := ⟨Representations.empty.insert .Identity []⟩,
    duration := none }

/-- The response wStaleCE serializes to for Identity. -/
def wStaleResponse : ResponseOut :=
  { parts := { status := 200,
               headers := [("content-encoding", "gzip"),
                           ("content-length", "0")],
               extensionsLen := 0 },
    bodyBytes := [] }

/-- A concrete upstream response declaring Content-Length 3. -/
def wParts3 : Parts :=
  { status := 200, headers := [("content-length", "3")], extensionsLen := 0 }

/-! Helper lemmas about the header map operations. -/

theorem HeaderMap.contains_key_remove_self (h : HeaderMap) (n : String) :
    (h.remove n).contains_key n = false := by
  induction h with
  | nil => rfl
  | cons p t ih =>
    by_cases hp : p.1 = n
    · simp [HeaderMap.remove, HeaderMap.contains_key, List.filter_cons, hp]
    · simp [HeaderMap.remove, HeaderMap.contains_key, List.filter_cons, hp]

theorem HeaderMap.contains_key_remove_ne (h : HeaderMap) {n m : String}
    (hmn : m ≠ n) : (h.remove n).contains_key m = h.contains_key m := by
  induction h with
  | nil => rfl
  | cons p t ih =>
    by_cases hp : p.1 = n
    · have hm : (n == m) = false := by
        simp
        exact fun e => hmn e.symm
      simp [HeaderMap.remove, HeaderMap.contains_key, List.filter_cons, hp, hm]
        at ih ⊢
      exact ih
    · simp [HeaderMap.remove, HeaderMap.contains_key, List.filter_cons, hp]
        at ih ⊢
      cases hm : (p.1 == m) with
      | true => simp
      | false => simpa [hm] using ih

theorem HeaderMap.contains_key_set_self (h : HeaderMap) (n v : String) :
    (h.set_value n v).contains_key n = true := by
  simp [HeaderMap.set_value, HeaderMap.contains_key, List.any_append]

theorem HeaderMap.contains_key_set_ne (h : HeaderMap) {n m : String}
    (v : String) (hmn : m ≠ n) :
    (h.set_value n v).contains_key m = h.contains_key m := by
  have hnm : (n == m) = false := by
    simp
    exact fun e => hmn e.symm
  simp only [HeaderMap.set_value, HeaderMap.contains_key, List.any_append]
  have := HeaderMap.contains_key_remove_ne h hmn
  simp only [HeaderMap.contains_key] at this
  simp [this, hnm]

theorem HeaderMap.get_value_set_self (h : HeaderMap) (n v : String) :
    (h.set_value n v).get_value n = some v := by
  induction h with
  | nil => simp [HeaderMap.set_value, HeaderMap.remove, HeaderMap.get_value]
  | cons p t ih =>
    by_cases hp : p.1 = n
    · simp [HeaderMap.set_value, HeaderMap.remove, HeaderMap.get_value,
        List.filter_cons, hp]
    · simp [HeaderMap.set_value, HeaderMap.remove, HeaderMap.get_value,
        List.filter_cons, hp]

theorem HeaderMap.get_value_set_ne (h : HeaderMap) {n m : String} (v : String)
    (hmn : m ≠ n) : (h.set_value n v).get_value m = h.get_value m := by
  induction h with
  | nil =>
    have : (n == m) = false := by
      simp
      exact fun e => hmn e.symm
    simp [HeaderMap.set_value, HeaderMap.remove, HeaderMap.get_value, this]
  | cons p t ih =>
    by_cases hp : p.1 = n
    · have hm : (n == m) = false := by
        simp
        exact fun e => hmn e.symm
      simp [HeaderMap.set_value, HeaderMap.remove, HeaderMap.get_value,
        List.filter_cons, hp, hm] at ih ⊢
      exact ih
    · by_cases hq : p.1 = m
      · simp [HeaderMap.set_value, HeaderMap.remove, HeaderMap.get_value,
          List.filter_cons, hp, hq, hmn]
      · simp [HeaderMap.set_value, HeaderMap.remove, HeaderMap.get_value,
          List.filter_cons, hp, hq, hmn] at ih ⊢
        exact ih

theorem HeaderMap.contains_key_remove_eq (h : HeaderMap) (n m : String) :
    (h.remove n).contains_key m = (!(m == n) && h.contains_key m) := by
  by_cases hmn : m = n
  · subst hmn
    simp [HeaderMap.contains_key_remove_self]
  · have hb : (m == n) = false := by simpa using hmn
    simp [HeaderMap.contains_key_remove_ne h hmn, hb]

theorem HeaderMap.contains_key_set_eq (h : HeaderMap) (n v m : String) :
    (h.set_value n v).contains_key m = ((m == n) || h.contains_key m) := by
  by_cases hmn : m = n
  · subst hmn
    simp [HeaderMap.contains_key_set_self]
  · have hb : (m == n) = false := by simpa using hmn
    simp [HeaderMap.contains_key_set_ne h v hmn, hb]

/-! Helper notions for representation maps and weights. -/

/-- One representation map extends another: every stored representation is
preserved. -/
def Representations.extends_to (r s : Representations) : Prop :=
  ∀ e b, r e = some b → s e = some b

theorem Representations.extends_to_rfl (r : Representations) :
    r.extends_to r := fun _ _ h => h

theorem Representations.extends_to_trans {r s t : Representations}
    (h1 : r.extends_to s) (h2 : s.extends_to t) : r.extends_to t :=
  fun e b hb => h2 e b (h1 e b hb)

theorem Representations.extends_to_insert_of_none (r : Representations)
    {e : Encoding} (b : Bytes) (he : r e = none) :
    r.extends_to (r.insert e b) := by
  intro x bx hx
  unfold Representations.insert
  by_cases hxe : x = e
  · rw [hxe] at hx
    rw [hx] at he
    exact absurd he (by simp)
  · simp [hxe]
    exact hx

theorem Representations.insert_ne (r : Representations) {x e : Encoding}
    (b : Bytes) (hxe : x ≠ e) : (r.insert e b) x = r x := by
  simp [Representations.insert, hxe]

/-- Adding representations never decreases the cache weight. -/
theorem CachedBody.cache_weight_mono {b1 b2 : CachedBody}
    (h : b1.representations.extends_to b2.representations) :
    b1.cache_weight ≤ b2.cache_weight := by
  unfold CachedBody.cache_weight
  apply Nat.add_le_add_left
  apply List.sum_le_sum
  intro e _
  cases h1 : b1.representations e with
  | none => simp
  | some bb =>
    rw [h e bb h1]

/-! Claim theorems. -/

/-- C10: the moka weigher reports the sum of the key weight and the response
weight when that sum fits in an unsigned 32-bit integer, and u32::MAX
otherwise; the result never wraps around and never exceeds u32::MAX. -/
theorem weigher_saturation (key_weight : Nat) (cached_response : CachedResponse) :
    (key_weight + cached_response.cache_weight ≤ U32_MAX →
      weigher key_weight cached_response =
        key_weight + cached_response.cache_weight) ∧
    (U32_MAX < key_weight + cached_response.cache_weight →
      weigher key_weight cached_response = U32_MAX) ∧
    weigher key_weight cached_response ≤ U32_MAX := by
  have hform : weigher key_weight cached_response =
      if key_weight + cached_response.cache_weight ≤ U32_MAX then
        key_weight + cached_response.cache_weight
      else U32_MAX := rfl
  rw [hform]
  refine ⟨fun h => by simp [h], fun h => by simp [Nat.not_le.2 h], ?_⟩
  split
  · assumption
  · exact Nat.le_refl U32_MAX

/-- C8: CachedBody::get on a body with no representations returns empty bytes
and no modified clone, for every requested encoding and configuration,
without failing (the source logs an error instead of panicking). -/
theorem cached_body_get_empty_no_panic (codec : Codec) (encoding : Encoding)
    (configuration : EncodingConfiguration) :
    CachedBody.get codec ⟨Representations.empty⟩ encoding configuration =
      .ok ([], none) := by
  cases encoding <;> rfl

/-- C7: TieredCache reads first-then-next with a first-tier hit
short-circuiting (the result is independent of the next tier, and get leaves
both tiers unchanged, so no write-back promotion occurs), while put,
invalidate and invalidate_all fan out to both tiers. -/
theorem tiered_cache_contract {κ : Type} [DecidableEq κ] (c : TieredCache κ)
    (key : κ) (r : CachedResponse) :
    (c.get key = some r ↔
      c.first.get key = some r ∨
        (c.first.get key = none ∧ c.next.get key = some r)) ∧
    (∀ other : Store κ, c.first.get key = some r →
      TieredCache.get ⟨c.first, other⟩ key = some r) ∧
    c.put key r = ⟨c.first.put key r, c.next.put key r⟩ ∧
    c.invalidate key = ⟨c.first.invalidate key, c.next.invalidate key⟩ ∧
    c.invalidate_all = ⟨c.first.invalidate_all, c.next.invalidate_all⟩ := by
  refine ⟨?_, ?_, rfl, rfl, rfl⟩
  · unfold TieredCache.get
    cases h : c.first.get key with
    | none => simp [h]
    | some v => simp [h]
  · intro other hfirst
    unfold TieredCache.get
    rw [hfirst]

/-- C10 witness: at key weight 10 and the fixture response the sum fits in
32 bits and the weigher reports it exactly. -/
theorem weigher_saturation_witness :
    10 + wCached.cache_weight ≤ U32_MAX ∧
      weigher 10 wCached = 10 + wCached.cache_weight :=
  ⟨by decide, (weigher_saturation 10 wCached).1 (by decide)⟩

/-- C7 witness: with the fixture entry in the first tier and an empty next
tier, the first tier hit short-circuits. -/
theorem tiered_cache_contract_witness :
    Store.get [(1, wCached)] 1 = some wCached ∧
      TieredCache.get ⟨[(1, wCached)], ([] : Store Nat)⟩ 1 = some wCached :=
  ⟨rfl, (tiered_cache_contract ⟨[(1, wCached)], []⟩ 1 wCached).2.1 [] rfl⟩

/-- C1: for an upstream response whose XX-Cache resolves to true, whose
status is 2xx, with no Content-Range, and whose cacheable_by_response hook
(if any) accepts, should_skip_cache skips exactly when a declared
Content-Length lies outside the inclusive window
[min_body_size, max_body_size]. -/
theorem upstream_skip_iff_length_outside_window (self : Parts) (uri : String)
    (configuration : MiddlewareCachingConfiguration)
    (hcache : self.headers.xx_cache configuration.inner.cacheable_by_default =
      true)
    (hstatus : self.is_success = true)
    (hrange : self.headers.contains_key "content-range" = false)
    (hhook : ∀ cacheable,
      configuration.cacheable_by_response = some cacheable →
      cacheable uri self.headers = true) :
    (self.should_skip_cache uri configuration).1 = true ↔
      ∃ content_length, self.headers.content_length = some content_length ∧
        (content_length < configuration.inner.min_body_size ∨
          configuration.inner.max_body_size < content_length) := by
  cases hcl : self.headers.content_length with
  | none =>
    cases hhk : configuration.cacheable_by_response with
    | none =>
      simp [Parts.should_skip_cache, hcache, hstatus, hrange, hcl, hhk]
    | some cacheable =>
      simp [Parts.should_skip_cache, hcache, hstatus, hrange, hcl, hhk,
        hhook cacheable hhk]
  | some l =>
    by_cases h1 : l < configuration.inner.min_body_size
    · simp [Parts.should_skip_cache, hcache, hstatus, hrange, hcl, h1]
    · by_cases h2 : configuration.inner.max_body_size < l
      · simp [Parts.should_skip_cache, hcache, hstatus, hrange, hcl, h1, h2]
      · cases hhk : configuration.cacheable_by_response with
        | none =>
          simp [Parts.should_skip_cache, hcache, hstatus, hrange, hcl, h1, h2,
            hhk]
        | some cacheable =>
          simp [Parts.should_skip_cache, hcache, hstatus, hrange, hcl, h1, h2,
            hhk, hhook cacheable hhk]

/-- C1 witness: with window [2, 5], a declared length 6 is skipped and the
boundary length 5 is not skipped. -/
theorem upstream_skip_iff_length_outside_window_witness :
    (wParts6.should_skip_cache "/" wConfigC).1 = true ∧
      (wParts5.should_skip_cache "/" wConfigC).1 = false := by
  constructor
  · exact (upstream_skip_iff_length_outside_window wParts6 "/" wConfigC rfl rfl
      rfl (fun c h => by cases h)).2 ⟨6, rfl, Or.inr (by decide)⟩
  · cases hv : (wParts5.should_skip_cache "/" wConfigC).1 with
    | false => rfl
    | true =>
      obtain ⟨cl, hcl, hor⟩ :=
        (upstream_skip_iff_length_outside_window wParts5 "/" wConfigC rfl rfl
          rfl (fun c h => by cases h)).1 hv
      have h5 : wParts5.headers.content_length = some 5 := rfl
      rw [h5] at hcl
      injection hcl with hcl
      rw [← hcl] at hor
      simp [wConfigC] at hor

/-- C5: select_encoding returns Identity when the enabled-encodings list is
absent or empty; otherwise it returns the client's most preferred enabled
encoding (per the Accept-Encoding resolution) whenever the
encodable_by_request hook, if any, accepts non-identity choices, and returns
Identity when the non-identity choice is refused by the hook. -/
theorem select_encoding_policy (request : RequestModel)
    (configuration : MiddlewareEncodingConfiguration) :
    ((configuration.enabled_encodings_by_preference = none ∨
        configuration.enabled_encodings_by_preference = some []) →
      request.select_encoding configuration = .Identity) ∧
    (∀ enabled, configuration.enabled_encodings_by_preference = some enabled →
      enabled ≠ [] →
      (∀ encodable, configuration.encodable_by_request = some encodable →
        (request.acceptBest enabled).getD .Identity ≠ .Identity →
        encodable ((request.acceptBest enabled).getD .Identity) request.uri
          request.headers = true) →
      request.select_encoding configuration =
        (request.acceptBest enabled).getD .Identity) ∧
    (∀ enabled encodable,
      configuration.enabled_encodings_by_preference = some enabled →
      configuration.encodable_by_request = some encodable →
      (request.acceptBest enabled).getD .Identity ≠ .Identity →
      encodable ((request.acceptBest enabled).getD .Identity) request.uri
        request.headers = false →
      request.select_encoding configuration = .Identity) := by
  refine ⟨?_, ?_, ?_⟩
  · intro h
    cases h with
    | inl h => simp [RequestModel.select_encoding, h]
    | inr h => simp [RequestModel.select_encoding, h]
  · intro enabled hen hne hhook
    have hempty : enabled.isEmpty = false := by
      cases enabled with
      | nil => exact absurd rfl hne
      | cons a t => rfl
    by_cases hid : (request.acceptBest enabled).getD .Identity = .Identity
    · simp [RequestModel.select_encoding, hen, hempty, hid]
    · cases hhk : configuration.encodable_by_request with
      | none => simp [RequestModel.select_encoding, hen, hempty, hid, hhk]
      | some encodable =>
        simp [RequestModel.select_encoding, hen, hempty, hid, hhk,
          hhook encodable hhk hid]
  · intro enabled encodable hen hhk hid hrefuse
    cases henl : enabled.isEmpty with
    | true => simp [RequestModel.select_encoding, hen, henl]
    | false =>
      simp [RequestModel.select_encoding, hen, henl, hid, hhk, hrefuse]

/-- A concrete encoding configuration with a GZip preference and a hook that
refuses every encoding. -/
def wConfigERefuse : MiddlewareEncodingConfiguration :=
  { enabled_encodings_by_preference := some [.GZip],
    encodable_by_request := some (fun _ _ _ => false),
    encodable_by_response := none,
    inner := { min_body_size := 0, encodable_by_default := true,
               keep_identity_encoding := true } }

/-- A concrete request preferring GZip. -/
def wRequestG : RequestModel :=
  { method := "GET", uri := "/", headers := [],
    acceptBest := fun enabled => enabled.head? }

/-- C5 witness: with GZip enabled and a refusing hook the selected encoding
is Identity. -/
theorem select_encoding_policy_witness :
    wConfigERefuse.enabled_encodings_by_preference = some [.GZip] ∧
      (wRequestG.acceptBest [.GZip]).getD .Identity = .GZip ∧
      wRequestG.select_encoding wConfigERefuse = .Identity :=
  ⟨rfl, rfl,
    (select_encoding_policy wRequestG wConfigERefuse).2.2 [.GZip]
      (fun _ _ _ => false) rfl rfl (by decide) rfl⟩

/-- C6: when to_transcoding_response is called for a fresh entry
(is_new = true) and serialization succeeds, the value stored in the cache is
the original entry itself; the modified clone that to_response may have
produced is discarded. -/
theorem new_entry_put_ignores_modified {κ : Type} [DecidableEq κ]
    (codec : Codec) (self : CachedResponse) (encoding : Encoding)
    (cache : Store κ) (key : κ) (configuration : EncodingConfiguration)
    (response : ResponseOut) (modified : Option CachedResponse)
    (hok : self.to_response codec encoding configuration =
      .ok (response, modified)) :
    self.to_transcoding_response codec encoding true cache key configuration =
      (.fromCache response, cache.put key self) := by
  unfold CachedResponse.to_transcoding_response
  rw [hok]
  rfl

/-- C6 witness: serializing the fresh GZip-only entry for Identity produces a
modified clone, yet the entry put into the cache is the original. -/
theorem new_entry_put_ignores_modified_witness :
    wCachedG.to_response wCodec9 .Identity wConfigE =
        .ok (wRespOut, some wModified) ∧
      wCachedG.to_transcoding_response wCodec9 .Identity true
          ([] : Store Nat) 1 wConfigE =
        (.fromCache wRespOut, Store.put [] 1 wCachedG) :=
  ⟨rfl, new_entry_put_ignores_modified wCodec9 wCachedG .Identity [] 1
    wConfigE wRespOut (some wModified) rfl⟩

/-- The header pipeline of new_for establishes the stored-entry header
invariants for every input header map. -/
theorem new_for_headers_spec (headers : HeaderMap) (now : String)
    (skip_encoding : Bool) :
    (new_for_headers headers now skip_encoding).contains_key "last-modified" =
        true ∧
      (new_for_headers headers now skip_encoding).contains_key "xx-cache" =
        false ∧
      (new_for_headers headers now
          skip_encoding).contains_key "xx-cache-duration" = false ∧
      (new_for_headers headers now
          skip_encoding).contains_key "content-encoding" = false ∧
      (new_for_headers headers now
          skip_encoding).contains_key "content-length" = false ∧
      (new_for_headers headers now
          skip_encoding).contains_key "content-digest" = false ∧
      (new_for_headers headers now
          skip_encoding).contains_key "accept-ranges" = false := by
  by_cases hlm : headers.contains_key "last-modified" <;>
    by_cases hsk : skip_encoding <;>
      simp [new_for_headers, HeaderMap.contains_key_remove_eq,
        HeaderMap.contains_key_set_eq, hlm, hsk]

/-- C2: every CachedResponse successfully built by new_for has Last-Modified
in its headers (stamped with the current time when the upstream omitted it)
and has none of XX-Cache, XX-Cache-Duration, Content-Encoding,
Content-Length, Content-Digest, Accept-Ranges. -/
theorem new_for_header_invariants (codec : Codec) (now uri : String)
    (response : Parts) (read_result : Except Bytes Bytes)
    (preferred_encoding : Encoding) (skip_encoding : Bool)
    (caching_configuration : CachingConfiguration)
    (encoding_configuration : EncodingConfiguration)
    (cached : CachedResponse)
    (hok : CachedResponse.new_for codec now uri response read_result
      preferred_encoding skip_encoding caching_configuration
      encoding_configuration = .ok cached) :
    cached.headers.contains_key "last-modified" = true ∧
    cached.headers.contains_key "xx-cache" = false ∧
    cached.headers.contains_key "xx-cache-duration" = false ∧
    cached.headers.contains_key "content-encoding" = false ∧
    cached.headers.contains_key "content-length" = false ∧
    cached.headers.contains_key "content-digest" = false ∧
    cached.headers.contains_key "accept-ranges" = false := by
  unfold CachedResponse.new_for at hok
  cases read_result with
  | error fb => simp at hok
  | ok bytes =>
    split at hok
    · simp at hok
    · dsimp only at hok
      split at hok
      · simp at hok
      · simp only [Except.ok.injEq] at hok
        subst hok
        exact new_for_headers_spec response.headers now skip_encoding

/-- C2 witness: a concrete upstream response with XX-Cache and Content-Length
headers and no Last-Modified yields exactly the fixture entry, which
satisfies all header invariants. -/
theorem new_for_header_invariants_witness :
    CachedResponse.new_for wCodec "t" "/" wPartsXC (.ok [1, 2, 3]) .Identity
        false wCCfg wConfigE = .ok wCached ∧
      (wCached.headers.contains_key "last-modified" = true ∧
        wCached.headers.contains_key "xx-cache" = false ∧
        wCached.headers.contains_key "xx-cache-duration" = false ∧
        wCached.headers.contains_key "content-encoding" = false ∧
        wCached.headers.contains_key "content-length" = false ∧
        wCached.headers.contains_key "content-digest" = false ∧
        wCached.headers.contains_key "accept-ranges" = false) :=
  ⟨rfl, new_for_header_invariants wCodec "t" "/" wPartsXC (.ok [1, 2, 3])
    .Identity false wCCfg wConfigE wCached rfl⟩

/-- C3 counterexample: for the entry wStaleCE, whose stored headers already
contain Content-Encoding, serializing with requested encoding Identity has
effective encoding Identity and yet the emitted response still carries a
Content-Encoding header, contradicting the claim that Content-Encoding is
absent whenever the effective encoding is Identity for every CachedResponse. -/
theorem to_response_identity_keeps_stale_content_encoding :
    wStaleCE.effectiveEncoding .Identity wConfigE = .Identity ∧
      wStaleCE.to_response wCodec .Identity wConfigE =
        .ok (wStaleResponse, none) ∧
      wStaleResponse.parts.headers.contains_key "content-encoding" = true :=
  ⟨rfl, rfl, rfl⟩

/-- C3 (amended): for every CachedResponse, the response emitted by
to_response has XX-Encode removed, Content-Length equal to the byte length of
the returned representation, Content-Encoding set to the effective encoding
whenever that is not Identity, Content-Encoding absent when the effective
encoding is Identity provided the stored headers do not already contain
Content-Encoding (as new_for guarantees for every stored entry), and the
effective encoding forced to Identity whenever the stored XX-Encode header
resolves to false under encodable_by_default. -/
theorem to_response_header_contract (codec : Codec) (self : CachedResponse)
    (encoding : Encoding) (configuration : EncodingConfiguration)
    (response : ResponseOut) (modified : Option CachedResponse)
    (hok : self.to_response codec encoding configuration =
      .ok (response, modified)) :
    response.parts.headers.contains_key "xx-encode" = false ∧
    response.parts.headers.get_value "content-length" =
      some (toString response.bodyBytes.length) ∧
    (self.effectiveEncoding encoding configuration ≠ .Identity →
      response.parts.headers.get_value "content-encoding" =
        some (self.effectiveEncoding encoding configuration).headerName) ∧
    (self.effectiveEncoding encoding configuration = .Identity →
      self.parts.headers.contains_key "content-encoding" = false →
      response.parts.headers.contains_key "content-encoding" = false) ∧
    (self.headers.xx_encode configuration.encodable_by_default = false →
      self.effectiveEncoding encoding configuration = .Identity) := by
  have heffid : self.headers.xx_encode configuration.encodable_by_default =
      false → self.effectiveEncoding encoding configuration = .Identity := by
    intro hxx
    unfold CachedResponse.effectiveEncoding
    by_cases hi : encoding = Encoding.Identity
    · simp [hi]
    · simp [hi, hxx]
  unfold CachedResponse.to_response at hok
  dsimp only at hok
  split at hok
  · simp at hok
  · simp only [Except.ok.injEq, Prod.mk.injEq] at hok
    obtain ⟨hresp, hmod⟩ := hok
    subst hresp
    by_cases heff : self.effectiveEncoding encoding configuration =
        Encoding.Identity
    · refine ⟨?_, ?_, ?_, ?_, heffid⟩
      · simp [heff, HeaderMap.contains_key_set_eq,
          HeaderMap.contains_key_remove_self]
      · simp [heff, HeaderMap.get_value_set_self]
      · intro h
        exact absurd heff h
      · intro _ hce
        simp [heff, HeaderMap.contains_key_set_eq,
          HeaderMap.contains_key_remove_eq, hce]
    · refine ⟨?_, ?_, ?_, ?_, heffid⟩
      · simp [heff, HeaderMap.contains_key_set_eq,
          HeaderMap.contains_key_remove_self]
      · simp [heff, HeaderMap.get_value_set_self]
      · intro _
        simp only [heff, if_true]
        rw [show ((if self.effectiveEncoding encoding configuration ≠
            Encoding.Identity then
              (self.parts.headers.remove "xx-encode").set_value
                "content-encoding"
                (self.effectiveEncoding encoding configuration).headerName
            else self.parts.headers.remove "xx-encode") : HeaderMap) =
          (self.parts.headers.remove "xx-encode").set_value "content-encoding"
            (self.effectiveEncoding encoding configuration).headerName from
          if_pos heff]
        rw [HeaderMap.get_value_set_ne _ _ (by decide)]
        exact HeaderMap.get_value_set_self _ _ _
      · intro h
        exact absurd h heff

/-- C3 witness (amended claim): the GZip-only fixture serialized for Identity
satisfies the header contract. -/
theorem to_response_header_contract_witness :
    wCachedG.to_response wCodec9 .Identity wConfigE =
        .ok (wRespOut, some wModified) ∧
      (wRespOut.parts.headers.contains_key "xx-encode" = false ∧
        wRespOut.parts.headers.get_value "content-length" =
          some (toString wRespOut.bodyBytes.length) ∧
        (wCachedG.effectiveEncoding .Identity wConfigE ≠ .Identity →
          wRespOut.parts.headers.get_value "content-encoding" =
            some (wCachedG.effectiveEncoding .Identity wConfigE).headerName) ∧
        (wCachedG.effectiveEncoding .Identity wConfigE = .Identity →
          wCachedG.parts.headers.contains_key "content-encoding" = false →
          wRespOut.parts.headers.contains_key "content-encoding" = false) ∧
        (wCachedG.headers.xx_encode wConfigE.encodable_by_default = false →
          wCachedG.effectiveEncoding .Identity wConfigE = .Identity)) :=
  ⟨rfl, to_response_header_contract wCodec9 wCachedG .Identity wConfigE
    wRespOut (some wModified) rfl⟩

/-- C4: on a cache miss whose upstream response is not skip-classified, when
building the cache entry fails the middleware still emits exactly one
response and stores nothing: a failure carrying ResponsePieces yields the
non-cached streaming response that prepends the already-read first bytes to
the remaining upstream stream with the validated encoding, and any other
failure yields the generic 500 response. -/
theorem handle_miss_failure_paths {κ : Type} [DecidableEq κ] (codec : Codec)
    (now : String) (caching : MiddlewareCachingConfiguration)
    (encoding_configuration : MiddlewareEncodingConfiguration)
    (request : RequestModel) (key : κ) (upstream_parts : Parts)
    (upstream_read : Except Bytes Bytes)
    (is_modified : HeaderMap → HeaderMap → Bool) (cache : Store κ)
    (content_length : Option Nat) (encoding1 : Encoding)
    (skip_encoding : Bool) (err : Option ResponsePieces)
    (hnoskip : request.should_skip_cache caching = false)
    (hmiss : cache.get key = none)
    (hclass : upstream_parts.should_skip_cache request.uri caching =
      (false, content_length))
    (hval : upstream_parts.validate_encoding request.uri
      (request.select_encoding encoding_configuration) content_length
      encoding_configuration = (encoding1, skip_encoding))
    (hfail : CachedResponse.new_for codec now request.uri upstream_parts
      upstream_read encoding1 skip_encoding caching.inner
      encoding_configuration.inner = .error err) :
    (∀ pieces, err = some pieces →
      handle codec now caching encoding_configuration request key
        upstream_parts upstream_read is_modified cache =
        (.transcoding pieces.response (some pieces.first_bytes) encoding1,
         cache)) ∧
    (err = none →
      handle codec now caching encoding_configuration request key
        upstream_parts upstream_read is_modified cache =
        (.error500, cache)) := by
  constructor
  · intro pieces hp
    subst hp
    unfold handle
    rw [hnoskip]
    simp only [Bool.false_eq_true, if_false]
    rw [hmiss]
    dsimp only
    rw [hclass]
    dsimp only
    rw [hval]
    dsimp only
    simp only [Bool.false_eq_true, if_false]
    simp only [hfail]
  · intro hp
    subst hp
    unfold handle
    rw [hnoskip]
    simp only [Bool.false_eq_true, if_false]
    rw [hmiss]
    dsimp only
    rw [hclass]
    dsimp only
    rw [hval]
    dsimp only
    simp only [Bool.false_eq_true, if_false]
    simp only [hfail]

/-- C4 witness: a cache miss whose body read fails with first bytes [7, 8]
emits the streaming response prepending those bytes and stores nothing. -/
theorem handle_miss_failure_paths_witness :
    CachedResponse.new_for wCodec "t" "/" wParts3 (.error [7, 8]) .Identity
        false wConfigC.inner wConfigERefuse.inner =
      .error (some ⟨wParts3, [7, 8]⟩) ∧
    handle wCodec "t" wConfigC wConfigERefuse wRequestG (1 : Nat) wParts3
        (.error [7, 8]) (fun _ _ => true) [] =
      (.transcoding wParts3 (some [7, 8]) .Identity, []) :=
  ⟨rfl,
    (handle_miss_failure_paths wCodec "t" wConfigC wConfigERefuse wRequestG 1
      wParts3 (.error [7, 8]) (fun _ _ => true) [] (some 3) .Identity false
      (some ⟨wParts3, [7, 8]⟩) rfl rfl rfl rfl rfl).1 ⟨wParts3, [7, 8]⟩ rfl⟩

/-- C9: whenever CachedBody::get returns a modified clone, every stored
representation of the original body is preserved in the clone
(representations are added, never removed), and consequently the clone's
cache weight is at least the original's: weight is monotonically
non-decreasing as representations are added. -/
theorem cached_body_get_extends (codec : Codec) (body : CachedBody)
    (encoding : Encoding) (configuration : EncodingConfiguration)
    (bytes : Bytes) (modified : CachedBody)
    (hok : body.get codec encoding configuration =
      .ok (bytes, some modified)) :
    body.representations.extends_to modified.representations ∧
      body.cache_weight ≤ modified.cache_weight := by
  have hsub : body.representations.extends_to modified.representations := by
    unfold CachedBody.get at hok
    split at hok
    · simp at hok
    · rename_i henc
      split at hok
      · rename_i hid
        subst hid
        split at hok
        · rename_i from_encoding fb hfa
          split at hok
          · rename_i ib hdec
            simp only [Except.ok.injEq, Prod.mk.injEq, Option.some.injEq]
              at hok
            obtain ⟨-, hm⟩ := hok
            subst hm
            exact Representations.extends_to_insert_of_none _ _ henc
          · simp at hok
        · simp at hok
      · rename_i hnid
        split at hok
        · rename_i idb hidb
          split at hok
          · rename_i b2 henc2
            simp only [Except.ok.injEq, Prod.mk.injEq, Option.some.injEq]
              at hok
            obtain ⟨-, hm⟩ := hok
            subst hm
            exact Representations.extends_to_insert_of_none _ _ henc
          · simp at hok
        · rename_i hidn
          split at hok
          · rename_i from_encoding fb hfa
            split at hok
            · rename_i idb hdec
              split at hok
              · rename_i b2 henc2
                dsimp only at hok
                by_cases hkeep : configuration.keep_identity_encoding
                · simp only [hkeep, if_true] at hok
                  simp only [Except.ok.injEq, Prod.mk.injEq,
                    Option.some.injEq] at hok
                  obtain ⟨-, hm⟩ := hok
                  subst hm
                  exact Representations.extends_to_trans
                    (Representations.extends_to_insert_of_none
                      body.representations idb hidn)
                    (Representations.extends_to_insert_of_none
                      (body.representations.insert Encoding.Identity idb) b2
                      (by
                        rw [Representations.insert_ne _ _ hnid]
                        exact henc))
                · simp only [hkeep, if_false] at hok
                  simp only [Except.ok.injEq, Prod.mk.injEq,
                    Option.some.injEq] at hok
                  obtain ⟨-, hm⟩ := hok
                  subst hm
                  exact Representations.extends_to_insert_of_none _ _ henc
              · simp at hok
            · simp at hok
          · simp at hok
  exact ⟨hsub, CachedBody.cache_weight_mono hsub⟩

/-- C9 witness: reading the Identity form of the GZip-only fixture produces a
modified clone that extends the original and weighs at least as much. -/
theorem cached_body_get_extends_witness :
    wCachedG.body.get wCodec9 .Identity wConfigE =
        .ok ([9],
          some ⟨wCachedG.body.representations.insert .Identity [9]⟩) ∧
      (wCachedG.body.representations.extends_to
          (wCachedG.body.representations.insert .Identity [9]) ∧
        wCachedG.body.cache_weight ≤
          CachedBody.cache_weight
            ⟨wCachedG.body.representations.insert .Identity [9]⟩) :=
  ⟨rfl, cached_body_get_extends wCodec9 wCachedG.body .Identity wConfigE [9]
    ⟨wCachedG.body.representations.insert .Identity [9]⟩ rfl⟩
